import Mathlib

/-!
Shallow embedding of the core of the `cry` crypto-chart repository:
the indicator library (`indicators.ts`), the visible-range window
transform (`utils.ts`), the paper-trading ledger (`useTrading.ts`) and
the auto-trading tick loop (`useAutoTrading` in `InteractiveChart.tsx`).

JavaScript numbers are modelled as exact rationals (`ℚ`).  Where the
source can divide by zero (IEEE-754 produces `Infinity`/`NaN` there) the
embedding uses the explicit value type `JsVal` that mirrors those IEEE
outcomes, so that "the code produces NaN here" is a provable statement
rather than an artefact of `ℚ`'s division-by-zero convention.
-/

namespace Cry


/-- A `[timestamp, price]` pair (`PricePoint` in `types.ts`). -/
abbrev PricePoint : Type := ℤ × ℚ

/-- An SMA/EMA output sample (`SMAValue`/`EMAValue` in `types.ts`). -/
structure SMAValue where
  timestamp : ℤ
  value : ℚ
  deriving DecidableEq, Repr

/-- The list of trailing windows of length `p`: window `i` is
`xs[i .. i+p-1]`.  For `p = 0` or `p > xs.length` this is empty, matching
the loop bounds `for (i = p-1; i < xs.length; i++)` in `indicators.ts`
(for `p ≥ 1`). -/
def slidingWindows (p : ℕ) (xs : List α) : List (List α) :=
  (List.range (xs.length + 1 - p)).map (fun i => (xs.drop i).take p)

/-- Embedding of `calculateSMA` from `indicators.ts`.  The source crashes for
`period = 0` (it indexes `prices[-1]`), so the embedding is restricted by
the explicit `period = 0` guard; every claim quantifies over `period ≥ 1`. -/
def calculateSMA (prices : List PricePoint) (period : ℕ) : List SMAValue :=
  if period = 0 ∨ prices.length < period then []
  else
    (slidingWindows period prices).map (fun w =>
      { timestamp := (w.map Prod.fst).getLastD 0
        value := (w.map Prod.snd).sum / period })

/-- The tail of `calculateEMA`'s loop: starting from the running value
`ema`, emit `price * k + ema * (1 - k)` for each remaining point. -/
def emaSteps (k : ℚ) : ℚ → List PricePoint → List SMAValue
  | _, [] => []
  | ema, p :: ps =>
      let e := p.2 * k + ema * (1 - k)
      ⟨p.1, e⟩ :: emaSteps k e ps

/-- Embedding of `calculateEMA` from `indicators.ts`: the seed value is the SMA of the
first `period` points, emitted at the timestamp of point `period - 1`;
subsequent values use the multiplier `k = 2/(period+1)`.  As with
`calculateSMA`, the source crashes for `period = 0`. -/
def calculateEMA (prices : List PricePoint) (period : ℕ) : List SMAValue :=
  if period = 0 ∨ prices.length < period then []
  else
    let k : ℚ := 2 / (period + 1)
    let seed : ℚ := ((prices.take period).map Prod.snd).sum / period
    let seedTs : ℤ := ((prices.take period).map Prod.fst).getLastD 0
    ⟨seedTs, seed⟩ :: emaSteps k seed (prices.drop period)

/-- The result record of `calculateVisibleRange` in `utils.ts`. -/
structure VisibleRange where
  visibleStart : ℤ
  visibleEnd : ℤ
  visibleCount : ℤ
  deriving DecidableEq, Repr

/-- JavaScript `Math.round`: round half toward positive infinity. -/
def jsRound (q : ℚ) : ℤ := ⌊q + 1/2⌋

/-- Embedding of `calculateVisibleRange` from `utils.ts`:
`visibleCount = min(totalLength, max(1, ⌊totalLength/zoom⌋))`,
`visibleStart = max(0, min(totalLength - visibleCount, round(pan * maxPan)))`,
`visibleEnd = visibleStart + visibleCount`. -/
def calculateVisibleRange (totalLength : ℕ) (zoom pan : ℚ) : VisibleRange :=
  let visibleCount : ℤ := min (totalLength : ℤ) (max 1 ⌊(totalLength : ℚ) / zoom⌋)
  let maxPan : ℤ := (totalLength : ℤ) - visibleCount
  let panIndex : ℤ := jsRound (pan * maxPan)
  let visibleStart : ℤ := max 0 (min ((totalLength : ℤ) - visibleCount) panIndex)
  { visibleStart := visibleStart
    visibleEnd := visibleStart + visibleCount
    visibleCount := visibleCount }

/-- A JavaScript number outcome: a finite value, `±Infinity`, or `NaN`.
Negative zero is identified with zero; all finite arithmetic is exact. -/
inductive JsVal where
  | fin (q : ℚ)
  | inf
  | negInf
  | nan
  deriving DecidableEq, Repr

namespace JsVal

/-- IEEE addition on `JsVal`. -/
def add : JsVal → JsVal → JsVal
  | fin a, fin b => fin (a + b)
  | fin _, inf => inf
  | fin _, negInf => negInf
  | inf, fin _ => inf
  | negInf, fin _ => negInf
  | inf, inf => inf
  | negInf, negInf => negInf
  | inf, negInf => nan
  | negInf, inf => nan
  | _, _ => nan

/-- IEEE subtraction on `JsVal`. -/
def sub : JsVal → JsVal → JsVal
  | fin a, fin b => fin (a - b)
  | fin _, inf => negInf
  | fin _, negInf => inf
  | inf, fin _ => inf
  | negInf, fin _ => negInf
  | inf, negInf => inf
  | negInf, inf => negInf
  | inf, inf => nan
  | negInf, negInf => nan
  | _, _ => nan

/-- IEEE multiplication on `JsVal` (zero times an infinity is `NaN`). -/
def mul : JsVal → JsVal → JsVal
  | fin a, fin b => fin (a * b)
  | fin a, inf => if a = 0 then nan else if 0 < a then inf else negInf
  | fin a, negInf => if a = 0 then nan else if 0 < a then negInf else inf
  | inf, fin b => if b = 0 then nan else if 0 < b then inf else negInf
  | negInf, fin b => if b = 0 then nan else if 0 < b then negInf else inf
  | inf, inf => inf
  | negInf, negInf => inf
  | inf, negInf => negInf
  | negInf, inf => negInf
  | _, _ => nan

/-- IEEE division on `JsVal`, with the denominator zero treated as `+0`
(the only zeros the embedded code divides by arise as sums or differences
of non-negative magnitudes, which IEEE represents as `+0`). -/
def div : JsVal → JsVal → JsVal
  | fin a, fin b =>
      if b = 0 then (if a = 0 then nan else if 0 < a then inf else negInf)
      else fin (a / b)
  | fin _, inf => fin 0
  | fin _, negInf => fin 0
  | inf, fin b => if 0 ≤ b then inf else negInf
  | negInf, fin b => if 0 ≤ b then negInf else inf
  | _, _ => nan

/-- Sum of a list of `JsVal`s, left to right from `0` (the behaviour of
`Array.prototype.reduce((a, b) => a + b)` on a non-empty array, since
adding a leading exact `0` never changes an IEEE sum's classification
here: exact rational arithmetic has no rounding). -/
def sum (l : List JsVal) : JsVal := l.foldl add (fin 0)

/-- Predicate: `v` is a finite value within `[lo, hi]`. -/
def InRange (lo hi : ℚ) : JsVal → Prop
  | fin q => lo ≤ q ∧ q ≤ hi
  | _ => False

instance (lo hi : ℚ) (v : JsVal) : Decidable (InRange lo hi v) := by
  cases v <;> simp only [InRange] <;> infer_instance

end JsVal

/-- An RSI output sample; the value is a `JsVal` because the source's
`avgGain / avgLoss` can divide by zero. -/
structure RSIValue where
  timestamp : ℤ
  value : JsVal
  deriving DecidableEq, Repr

/-- One RSI value as computed by `indicators.ts`:
`rs = avgGain / avgLoss`, `rsi = 100 - 100 / (1 + rs)`, evaluated in
IEEE arithmetic (no explicit division-by-zero handling in the source). -/
def rsiOf (avgGain avgLoss : ℚ) : JsVal :=
  let rs := JsVal.div (.fin avgGain) (.fin avgLoss)
  JsVal.sub (.fin 100) (JsVal.div (.fin 100) (JsVal.add (.fin 1) rs))

/-- The smoothed-average loop of `calculateRSI`: each element of the list
is `(timestamp of the later point, gain, loss)`; the running averages use
Wilder smoothing `avg' = (avg * (period - 1) + value) / period`. -/
def rsiSteps (period : ℕ) : ℚ → ℚ → List (ℤ × ℚ × ℚ) → List RSIValue
  | _, _, [] => []
  | aG, aL, (t, g, l) :: rest =>
      let aG' := (aG * ((period : ℚ) - 1) + g) / period
      let aL' := (aL * ((period : ℚ) - 1) + l) / period
      ⟨t, rsiOf aG' aL'⟩ :: rsiSteps period aG' aL' rest

/-- The per-step `(timestamp, gain, loss)` triples of `calculateRSI`:
entry `i` carries the timestamp of `prices[i+1]` and the gain/loss of the
change `prices[i+1] - prices[i]`. -/
def gainLossTriples (prices : List PricePoint) : List (ℤ × ℚ × ℚ) :=
  List.zipWith
    (fun a b =>
      let change := b.2 - a.2
      (b.1, if 0 < change then change else 0,
        if change < 0 then -change else 0))
    prices prices.tail

/-- Embedding of `calculateRSI` from `indicators.ts`: seed averages are the plain
averages of the first `period` gains/losses (first value emitted at the
timestamp of `prices[period]`), then Wilder smoothing.  The source
crashes for `period = 0`, hence the explicit guard. -/
def calculateRSI (prices : List PricePoint) (period : ℕ) : List RSIValue :=
  if period = 0 ∨ prices.length < period + 1 then []
  else
    let gl := gainLossTriples prices
    let aG0 := ((gl.take period).map (fun x => x.2.1)).sum / period
    let aL0 := ((gl.take period).map (fun x => x.2.2)).sum / period
    let ts0 := ((gl.take period).map (fun x => x.1)).getLastD 0
    ⟨ts0, rsiOf aG0 aL0⟩ :: rsiSteps period aG0 aL0 (gl.drop period)

/-- A raw Binance kline restricted to the fields the embedded code reads
(`BinanceKlineRaw` in `types.ts`; the string prices are modelled as the
rationals `parseFloat` yields on them). -/
structure Kline where
  openTime : ℤ
  openPrice : ℚ
  high : ℚ
  low : ℚ
  close : ℚ
  deriving DecidableEq, Repr

/-- A Stochastic output sample; `k` and `d` are `JsVal`s because the
source's `(close - lowestLow) / (highestHigh - lowestLow)` can divide by
zero on a flat window. -/
structure StochasticValue where
  timestamp : ℤ
  k : JsVal
  d : JsVal
  deriving DecidableEq, Repr

/-- The %K value of one trailing window, as computed by
`calculateStochastic`: `((close - lowestLow) / (highestHigh - lowestLow)) * 100`
in IEEE arithmetic (no flat-window handling in the source). -/
def stochK (w : List Kline) : JsVal :=
  let highestHigh := ((w.map Kline.high).max?).getD 0
  let lowestLow := ((w.map Kline.low).min?).getD 0
  let close := (w.map Kline.close).getLastD 0
  JsVal.mul
    (JsVal.div (.fin (close - lowestLow)) (.fin (highestHigh - lowestLow)))
    (.fin 100)

/-- Embedding of `calculateStochastic` from `indicators.ts`: %K over trailing
`kPeriod`-candle windows, %D the `dPeriod`-point SMA of %K; output entry
for %K index `i` is stamped with the open time of candle
`kPeriod - 1 + i`, the end candle of that %K's window.  The source
crashes for `kPeriod = 0` or `dPeriod = 0`, hence the guards.
(`max?`/`min?` match `Math.max(...highs)`/`Math.min(...lows)` on the
non-empty windows used here.) -/
def calculateStochastic (candles : List Kline) (kPeriod dPeriod : ℕ) :
    List StochasticValue :=
  if kPeriod = 0 ∨ dPeriod = 0 ∨ candles.length < kPeriod then []
  else
    let kvs : List (ℤ × JsVal) :=
      (slidingWindows kPeriod candles).map
        (fun w => ((w.map Kline.openTime).getLastD 0, stochK w))
    (slidingWindows dPeriod kvs).map (fun dw =>
      let lastKv := dw.getLastD (0, .nan)
      { timestamp := lastKv.1
        k := lastKv.2
        d := JsVal.div (JsVal.sum (dw.map Prod.snd)) (.fin dPeriod) })

/-- A per-symbol holding (`Portfolio.holdings` values in `useTrading.ts`). -/
structure Holding where
  amount : ℚ
  averagePrice : ℚ
  totalInvested : ℚ
  deriving DecidableEq, Repr

/-- Embedding of `Trade.type` in `useTrading.ts`. -/
inductive TradeType where
  | BUY
  | SELL
  deriving DecidableEq, Repr

/-- A trade record (`Trade` in `useTrading.ts`).  The impure `id`
(random) and `timestamp` (`Date.now()`) fields are omitted: they never
feed back into the ledger state. -/
structure Trade where
  type : TradeType
  symbol : String
  amount : ℚ
  price : ℚ
  total : ℚ
  deriving DecidableEq, Repr

/-- The paper-trading account (`Portfolio` in `useTrading.ts`).  The
holdings map is an association list with unique keys, mirroring the JS
object.  The derived display fields `totalPortfolioValue`/`totalPnL` are
omitted: `buyAsset`/`sellAsset` never read or write them. -/
structure Portfolio where
  cash : ℚ
  holdings : List (String × Holding)
  trades : List Trade
  deriving DecidableEq, Repr

/-- Embedding of `INITIAL_CASH` in `useTrading.ts`. -/
def INITIAL_CASH : ℚ := 10000

/-- Embedding of `TRADING_FEE` in `useTrading.ts` (0.1%). -/
def TRADING_FEE : ℚ := 1/1000

/-- The starting portfolio of `useTrading`. -/
def initialPortfolio : Portfolio :=
  { cash := INITIAL_CASH, holdings := [], trades := [] }

/-- Key lookup in the holdings map (`portfolio.holdings[symbol]`). -/
def lookupH (sym : String) : List (String × Holding) → Option Holding
  | [] => none
  | (s, h) :: rest => if s = sym then some h else lookupH sym rest

/-- Key assignment in the holdings map (`newHoldings[symbol] = …`):
replace the entry if the key is present, append it otherwise. -/
def updateH (sym : String) (h : Holding) :
    List (String × Holding) → List (String × Holding)
  | [] => [(sym, h)]
  | (s, x) :: rest =>
      if s = sym then (s, h) :: rest else (s, x) :: updateH sym h rest

/-- Key deletion in the holdings map (`delete newHoldings[symbol]`). -/
def removeH (sym : String) (hs : List (String × Holding)) :
    List (String × Holding) :=
  hs.filter (fun p => decide (p.1 ≠ sym))

/-- Embedding of `buyAsset` from `useTrading.ts`: fail (no state change) when
`cash < total + fee`; otherwise deduct the cost, create the holding or
fold the purchase into it at the weighted-average price, and append a
BUY trade whose `total` is the cost including the fee. -/
def buyAsset (sym : String) (amount price : ℚ) (p : Portfolio) :
    Bool × Portfolio :=
  let total := amount * price
  let fee := total * TRADING_FEE
  let totalCost := total + fee
  if p.cash < totalCost then (false, p)
  else
    let trade : Trade := ⟨.BUY, sym, amount, price, totalCost⟩
    let holdings' :=
      match lookupH sym p.holdings with
      | some h =>
          let existingValue := h.amount * h.averagePrice
          let newValue := amount * price
          let totalAmount := h.amount + amount
          let newAveragePrice := (existingValue + newValue) / totalAmount
          updateH sym
            ⟨totalAmount, newAveragePrice, h.totalInvested + total⟩
            p.holdings
      | none => updateH sym ⟨amount, price, total⟩ p.holdings
    (true,
      { cash := p.cash - totalCost
        holdings := holdings'
        trades := p.trades ++ [trade] })

/-- Embedding of `sellAsset` from `useTrading.ts`: fail when there is no holding or
it is smaller than the requested amount; otherwise add the net proceeds
to cash, remove the holding if fully sold or scale `totalInvested` by
the remaining-amount ratio (average price untouched), and append a SELL
trade whose `total` is the net proceeds. -/
def sellAsset (sym : String) (amount price : ℚ) (p : Portfolio) :
    Bool × Portfolio :=
  match lookupH sym p.holdings with
  | none => (false, p)
  | some holding =>
      if holding.amount < amount then (false, p)
      else
        let total := amount * price
        let fee := total * TRADING_FEE
        let netReceived := total - fee
        let trade : Trade := ⟨.SELL, sym, amount, price, netReceived⟩
        let holdings' :=
          if holding.amount = amount then removeH sym p.holdings
          else
            let remainingRatio := (holding.amount - amount) / holding.amount
            updateH sym
              ⟨holding.amount - amount, holding.averagePrice,
                holding.totalInvested * remainingRatio⟩
              p.holdings
        (true,
          { cash := p.cash + netReceived
            holdings := holdings'
            trades := p.trades ++ [trade] })

/-- One auto- or manual-trading ledger operation. -/
inductive TradeOp where
  | buy (sym : String) (amount price : ℚ)
  | sell (sym : String) (amount price : ℚ)

/-- Apply one operation's state change (success or failure). -/
def applyOp : TradeOp → Portfolio → Portfolio
  | .buy sym a pr, p => (buyAsset sym a pr p).2
  | .sell sym a pr, p => (sellAsset sym a pr p).2

/-- The operation's arguments are positive, as the spec's data model
requires of trades. -/
def validOp : TradeOp → Prop
  | .buy _ a pr => 0 < a ∧ 0 < pr
  | .sell _ a pr => 0 < a ∧ 0 < pr

instance (op : TradeOp) : Decidable (validOp op) := by
  cases op <;> simp only [validOp] <;> infer_instance

/-- The portfolio after running `ops` from the initial `$10,000` state. -/
def runOps (ops : List TradeOp) : Portfolio :=
  ops.foldl (fun p op => applyOp op p) initialPortfolio

/-- The well-formedness the ledger maintains: non-negative cash and
strictly positive holding amounts. -/
def PortfolioWF (p : Portfolio) : Prop :=
  0 ≤ p.cash ∧ ∀ pair ∈ p.holdings, 0 < pair.2.amount

/-- The accounting identity of the claim: every holding's
`totalInvested` equals `amount * averagePrice`. -/
def TIInvariant (p : Portfolio) : Prop :=
  ∀ pair ∈ p.holdings, pair.2.totalInvested =
    pair.2.amount * pair.2.averagePrice

/-- A Bollinger Bands output sample (`BollingerBandsValue` in
`types.ts`); the auto-trader only reads `lower`. -/
structure BollingerBandsValue where
  timestamp : ℤ
  upper : ℚ
  middle : ℚ
  lower : ℚ
  deriving DecidableEq, Repr

/-- The external ML prediction (`ModelPrediction`), restricted to the
fields the trading logic reads; `recommendation` and `confidence` stay
strings because the source compares them as strings. -/
structure ModelPrediction where
  recommendation : String
  confidence : String
  probability : ℚ
  timestamp : ℤ
  deriving DecidableEq, Repr

/-- Embedding of `AutoTradeSettings` from `useAutoTrading`; the optional
`strategyMode`/`selectedStrategyId` mirror the optional TS fields
(`testMode`/`fastTesting` are never read by the trading logic and are
omitted). -/
structure AutoTradeSettings where
  enabled : Bool
  maxTradeAmount : ℚ
  profitTarget : ℚ
  stopLoss : ℚ
  minConfidence : String
  strategyMode : Option String
  selectedStrategyId : Option String
  deriving DecidableEq, Repr

/-- Embedding of `AutoTradePosition` from `useAutoTrading` (the impure `timestamp` is
omitted; it only feeds the hold-time log line). -/
structure AutoTradePosition where
  symbol : String
  buyPrice : ℚ
  amount : ℚ
  targetSellPrice : ℚ
  stopLossPrice : ℚ
  strategy : Option String
  deriving DecidableEq, Repr

/-- Embedding of `AutoTradeStrategy` from `useAutoTrading`, restricted to the fields
the trading logic reads (`name`/`description` are display-only). -/
structure AutoTradeStrategy where
  id : String
  enabled : Bool
  logic : String
  deriving DecidableEq, Repr

/-- Embedding of `AutoTradeStats` from `useAutoTrading`. -/
structure AutoTradeStats where
  totalTrades : ℕ
  winningTrades : ℕ
  losingTrades : ℕ
  totalProfit : ℚ
  winRate : ℚ
  deriving DecidableEq, Repr

/-- Embedding of `shouldBuy` from `useAutoTrading`: requires a prediction, enabled
settings and no open position; recommendation must be `BUY`; the
confidence gate is `high ⇒ confidence == high`,
`medium ⇒ confidence ≠ low`; finally `cash * 0.95 ≥ maxTradeAmount`.
(The source also computes an unused `maxAmount` from `currentPrice`;
the parameter is kept for the signature's sake.) -/
def shouldBuy (settings : AutoTradeSettings)
    (position : Option AutoTradePosition) (cash currentPrice : ℚ)
    (pred : Option ModelPrediction) : Bool :=
  match pred with
  | none => false
  | some p =>
      if !settings.enabled || position.isSome then false
      else if p.recommendation ≠ "BUY" then false
      else if settings.minConfidence = "high" ∧ p.confidence ≠ "high" then false
      else if settings.minConfidence = "medium" ∧ p.confidence = "low" then false
      else decide (cash * (95/100) ≥ settings.maxTradeAmount)

/-- Embedding of `shouldSell` from `useAutoTrading`: with an open position and
enabled settings, sell when the price reaches the profit target or
falls to the stop loss. -/
def shouldSell (settings : AutoTradeSettings)
    (position : Option AutoTradePosition) (price : ℚ) : Bool :=
  match position with
  | none => false
  | some pos =>
      if !settings.enabled then false
      else decide (price ≥ pos.targetSellPrice) ||
        decide (price ≤ pos.stopLossPrice)

/-- Embedding of `isCandleGreen`: close > open. -/
def isCandleGreen (c : Kline) : Bool := decide (c.openPrice < c.close)

/-- Embedding of `isCandleRed`: close < open. -/
def isCandleRed (c : Kline) : Bool := decide (c.close < c.openPrice)

/-- Embedding of `evaluateCustomStrategy` from `useAutoTrading` for the one built-in
rule `bb_lower_red_two_green`: needs ≥ 3 candles and ≥ 1 Bollinger
value, no open position, some of the last three candles touching the
latest lower band within 0.1%, the third-last candle red, the last two
green, and `cash * 0.95 ≥ maxTradeAmount`.  Every other `logic` string
returns `false`. -/
def evaluateCustomStrategy (logic : String) (candles : List Kline)
    (bb : List BollingerBandsValue) (position : Option AutoTradePosition)
    (cash maxTradeAmount : ℚ) : Bool :=
  if logic = "bb_lower_red_two_green" then
    if candles.length < 3 ∨ bb.length < 1 then false
    else
      match candles.drop (candles.length - 3), bb.getLast? with
      | [thirdLast, secondLast, latest], some latestBB =>
          if position.isSome then false
          else
            let priceHitLowerBand :=
              [thirdLast, secondLast, latest].any
                (fun c => decide (c.low ≤ latestBB.lower * (1001/1000)))
            let hasRedCandle := isCandleRed thirdLast
            let hasTwoGreenCandles :=
              isCandleGreen secondLast && isCandleGreen latest
            let hasEnoughCash := decide (cash * (95/100) ≥ maxTradeAmount)
            priceHitLowerBand && hasRedCandle && hasTwoGreenCandles &&
              hasEnoughCash
      | _, _ => false
  else false

/-- Embedding of `executeBuy` from `useAutoTrading` (the ledger/position effect of
one call, applied sequentially): buy `maxTradeAmount / price` units; on
success the new position uses the default profit target and stop loss
and carries no strategy tag.  Returns the updated portfolio and the
created position (`none` when the fill failed). -/
def executeBuy (symbol : String) (settings : AutoTradeSettings)
    (currentPrice : ℚ) (pf : Portfolio) :
    Portfolio × Option AutoTradePosition :=
  let maxAmount := settings.maxTradeAmount / currentPrice
  let r := buyAsset symbol maxAmount currentPrice pf
  if r.1 then
    (r.2, some
      { symbol := symbol
        buyPrice := currentPrice
        amount := maxAmount
        targetSellPrice := currentPrice * (1 + settings.profitTarget)
        stopLossPrice := currentPrice * (1 - settings.stopLoss)
        strategy := none })
  else (r.2, none)

/-- Embedding of `executeCustomStrategyBuy` from `useAutoTrading`: like `executeBuy`,
but the profit target is overridden to 1% for
`bb_lower_red_two_green` and the position is tagged with the strategy's
`logic`. -/
def executeCustomStrategyBuy (symbol : String)
    (settings : AutoTradeSettings) (strat : AutoTradeStrategy)
    (currentPrice : ℚ) (pf : Portfolio) :
    Portfolio × Option AutoTradePosition :=
  let maxAmount := settings.maxTradeAmount / currentPrice
  let r := buyAsset symbol maxAmount currentPrice pf
  if r.1 then
    let profitTarget : ℚ :=
      if strat.logic = "bb_lower_red_two_green" then 1/100
      else settings.profitTarget
    (r.2, some
      { symbol := symbol
        buyPrice := currentPrice
        amount := maxAmount
        targetSellPrice := currentPrice * (1 + profitTarget)
        stopLossPrice := currentPrice * (1 - settings.stopLoss)
        strategy := some strat.logic })
  else (r.2, none)

/-- Embedding of `executeSell` from `useAutoTrading`: sell the whole position; on
success record the realized profit in the stats and clear the position,
on failure keep both. -/
def executeSell (symbol : String) (pos : AutoTradePosition) (price : ℚ)
    (pf : Portfolio) (stats : AutoTradeStats) :
    Portfolio × Option AutoTradePosition × AutoTradeStats :=
  let r := sellAsset symbol pos.amount price pf
  if r.1 then
    let profit := (price - pos.buyPrice) * pos.amount
    let isWin := decide (0 < profit)
    let totalTrades := stats.totalTrades + 1
    let winningTrades := stats.winningTrades + (if isWin then 1 else 0)
    let newStats : AutoTradeStats :=
      { totalTrades := totalTrades
        winningTrades := winningTrades
        losingTrades := stats.losingTrades + (if isWin then 0 else 1)
        totalProfit := stats.totalProfit + profit
        winRate := ((winningTrades : ℚ) / (totalTrades : ℚ)) * 100 }
    (r.2, none, newStats)
  else (r.2, some pos, stats)

/-- The per-symbol auto-trader state threading through ticks: the shared
portfolio, the open position, the running stats, the single-flight
`isProcessing` guard, and the last seen price/prediction timestamp. -/
structure AutoState where
  portfolio : Portfolio
  position : Option AutoTradePosition
  stats : AutoTradeStats
  processing : Bool
  lastPrice : ℚ
  lastPredictionTs : Option ℤ
  deriving DecidableEq, Repr

/-- Embedding of `buyAsset` as invoked later within a single tick: in
the source `buyAsset` is a `useCallback` closure whose
insufficient-funds guard reads the render-time `portfolio.cash`
(`staleCash`), while its `setPortfolio(prev => …)` functional updater
applies to the portfolio as already updated earlier in the same tick
(`p`).  The success-branch state change is exactly `buyAsset`'s. -/
def buyAssetStale (sym : String) (amount price staleCash : ℚ)
    (p : Portfolio) : Bool × Portfolio :=
  let total := amount * price
  let fee := total * TRADING_FEE
  let totalCost := total + fee
  if staleCash < totalCost then (false, p)
  else
    let trade : Trade := ⟨.BUY, sym, amount, price, totalCost⟩
    let holdings' :=
      match lookupH sym p.holdings with
      | some h =>
          let existingValue := h.amount * h.averagePrice
          let newValue := amount * price
          let totalAmount := h.amount + amount
          let newAveragePrice := (existingValue + newValue) / totalAmount
          updateH sym
            ⟨totalAmount, newAveragePrice, h.totalInvested + total⟩
            p.holdings
      | none => updateH sym ⟨amount, price, total⟩ p.holdings
    (true,
      { cash := p.cash - totalCost
        holdings := holdings'
        trades := p.trades ++ [trade] })

/-- Embedding of `executeCustomStrategyBuy` as invoked within a tick:
its `isProcessing` guard reads the render-time flag (which is `false`
whenever the tick ran at all, so it never blocks within one tick), and
the underlying `buyAsset` closure checks the render-time cash
(`staleCash`); on success, `setCurrentPosition` overwrites whatever
position was queued earlier in the same tick. -/
def executeCustomStrategyBuyStale (symbol : String)
    (settings : AutoTradeSettings) (strat : AutoTradeStrategy)
    (currentPrice staleCash : ℚ) (pf : Portfolio) :
    Portfolio × Option AutoTradePosition :=
  let maxAmount := settings.maxTradeAmount / currentPrice
  let r := buyAssetStale symbol maxAmount currentPrice staleCash pf
  if r.1 then
    let profitTarget : ℚ :=
      if strat.logic = "bb_lower_red_two_green" then 1/100
      else settings.profitTarget
    (r.2, some
      { symbol := symbol
        buyPrice := currentPrice
        amount := maxAmount
        targetSellPrice := currentPrice * (1 + profitTarget)
        stopLossPrice := currentPrice * (1 - settings.stopLoss)
        strategy := some strat.logic })
  else (r.2, none)

/-- The custom-strategy entry phase of one tick
(`if (strategyMode === 'custom' && settings.selectedStrategyId) …` in
the main trading effect).  Its guards are React closures over the
render-time state: `evaluateCustomStrategy` reads the render-time
`currentPosition` and `portfolio.cash` (`stale.position`,
`stale.portfolio.cash`), so a default-path buy earlier in the same tick
does NOT suppress it; only the queued functional mutations compose
(`st2`), and a successful custom buy overwrites the queued position. -/
def tickCustomPhase (symbol : String) (settings : AutoTradeSettings)
    (strategies : List AutoTradeStrategy) (currentPrice : ℚ)
    (candles : List Kline) (bb : List BollingerBandsValue)
    (stale st2 : AutoState) : AutoState :=
  match settings.strategyMode, settings.selectedStrategyId with
  | some "custom", some sid =>
      match strategies.find? (fun s => decide (s.id = sid) && s.enabled) with
      | some strat =>
          if evaluateCustomStrategy strat.logic candles bb stale.position
              stale.portfolio.cash settings.maxTradeAmount then
            let r := executeCustomStrategyBuyStale symbol settings strat
              currentPrice stale.portfolio.cash st2.portfolio
            { st2 with portfolio := r.1
                       position := match r.2 with
                         | some p => some p
                         | none => st2.position }
          else st2
      | none => st2
  | _, _ => st2

/-- The entry phases of one tick (the code after the sell check in the
main trading effect): first the default ML entry
(`if (!currentPosition && prediction) { if (shouldBuy…) executeBuy… }`,
with no `strategyMode` guard), then the custom-strategy phase.  The
default entry is the tick's first mutation, so for it the render-time
and current state coincide and the plain `buyAsset`/`executeBuy` are
exact; the custom phase afterwards reads the render-time state (`st1`)
for its guards while its mutation composes on the updated state. -/
def tickBuyPhases (symbol : String) (settings : AutoTradeSettings)
    (strategies : List AutoTradeStrategy) (pred : Option ModelPrediction)
    (currentPrice : ℚ) (candles : List Kline)
    (bb : List BollingerBandsValue) (st1 : AutoState) : AutoState :=
  let st2 :=
    if st1.position.isNone && pred.isSome &&
        shouldBuy settings st1.position st1.portfolio.cash currentPrice
          pred then
      let r := executeBuy symbol settings currentPrice st1.portfolio
      { st1 with portfolio := r.1
                 position := match r.2 with
                   | some p => some p
                   | none => st1.position }
    else st1
  tickCustomPhase symbol settings strategies currentPrice candles bb st1
    st2

/-- One tick of the main trading effect in `useAutoTrading`: skip when
disabled, processing, or neither the price (by more than `0.0001`) nor
the prediction timestamp changed; record the new price/prediction;
evaluate the exit first (returning immediately after a sell attempt),
then the entry phases. -/
def tick (symbol : String) (settings : AutoTradeSettings)
    (strategies : List AutoTradeStrategy) (pred : Option ModelPrediction)
    (currentPrice : ℚ) (candles : List Kline)
    (bb : List BollingerBandsValue) (st : AutoState) : AutoState :=
  if !settings.enabled || st.processing then st
  else
    let priceChanged := decide (|currentPrice - st.lastPrice| > 1/10000)
    let predictionChanged :=
      decide (pred.map ModelPrediction.timestamp ≠ st.lastPredictionTs)
    if !(priceChanged || predictionChanged) then st
    else
      let st1 := { st with lastPrice := currentPrice
                           lastPredictionTs :=
                             pred.map ModelPrediction.timestamp }
      match st1.position with
      | some pos =>
          if shouldSell settings (some pos) currentPrice then
            let r := executeSell symbol pos currentPrice st1.portfolio
              st1.stats
            { st1 with portfolio := r.1
                       position := r.2.1
                       stats := r.2.2 }
          else
            tickBuyPhases symbol settings strategies pred currentPrice
              candles bb st1
      | none =>
          tickBuyPhases symbol settings strategies pred currentPrice
            candles bb st1

theorem length_emaSteps (k : ℚ) (ema : ℚ) (ps : List PricePoint) :
    (emaSteps k ema ps).length = ps.length := by
  induction ps generalizing ema with
  | nil => rfl
  | cons p ps ih => simp [emaSteps, ih]

theorem length_slidingWindows (p : ℕ) (xs : List α) :
    (slidingWindows p xs).length = xs.length + 1 - p := by
  simp [slidingWindows]

/-- C10: For a price series of length `n` and a period `p` with
`1 ≤ p ≤ n`, `calculateSMA` and `calculateEMA` each return exactly
`n - p + 1` values; for `p > n` both return the empty list. -/
theorem sma_ema_length_law (prices : List PricePoint) (p : ℕ)
    (hp : 1 ≤ p) :
    (p ≤ prices.length →
      (calculateSMA prices p).length = prices.length - p + 1 ∧
      (calculateEMA prices p).length = prices.length - p + 1) ∧
    (prices.length < p →
      calculateSMA prices p = [] ∧ calculateEMA prices p = []) := by
  constructor
  · intro hle
    have hnot : ¬ (p = 0 ∨ prices.length < p) := by omega
    constructor
    · simp only [calculateSMA, if_neg hnot, List.length_map,
        length_slidingWindows] <;> omega
    · simp only [calculateEMA, if_neg hnot, List.length_cons,
        length_emaSteps, List.length_drop] <;> omega
  · intro hlt
    have h : p = 0 ∨ prices.length < p := Or.inr hlt
    constructor
    · simp [calculateSMA, h]
    · simp [calculateEMA, h]

/-- Witness for C10 at a concrete input: a 5-point series with period 3
yields 3 SMA values and 3 EMA values, and period 6 yields none. -/
theorem sma_ema_length_law_witness :
    (calculateSMA [(0, 10), (1, 20), (2, 30), (3, 40), (4, 50)] 3).length = 3 ∧
    (calculateEMA [(0, 10), (1, 20), (2, 30), (3, 40), (4, 50)] 3).length = 3 ∧
    calculateSMA [(0, 10), (1, 20), (2, 30), (3, 40), (4, 50)] 6 = [] := by
  refine ⟨?_, ?_, ?_⟩
  · exact ((sma_ema_length_law [(0, 10), (1, 20), (2, 30), (3, 40), (4, 50)] 3
      (by decide)).1 (by decide)).1
  · exact ((sma_ema_length_law [(0, 10), (1, 20), (2, 30), (3, 40), (4, 50)] 3
      (by decide)).1 (by decide)).2
  · exact ((sma_ema_length_law [(0, 10), (1, 20), (2, 30), (3, 40), (4, 50)] 6
      (by decide)).2 (by decide)).1

/-- C3, counterexample: The claim states
`calculateVisibleRange 0 zoom pan` has `visibleCount = 1`; the code
returns `visibleCount = min 0 (max 1 0) = 0`. -/
theorem visibleRange_empty_counterexample :
    (calculateVisibleRange 0 1 0).visibleCount = 0 ∧
    ¬ (calculateVisibleRange 0 1 0).visibleCount = 1 := by
  norm_num [calculateVisibleRange, jsRound]

/-- C3, amended: For every `zoom ≥ 1` and `pan ∈ [0, 1]`,
`calculateVisibleRange 0 zoom pan` returns `visibleCount = 0` and
`visibleStart = visibleEnd = 0` (not `visibleCount = 1`): with no data the
window is empty. -/
theorem visibleRange_empty (zoom pan : ℚ) (hz : 1 ≤ zoom)
    (hp0 : 0 ≤ pan) (hp1 : pan ≤ 1) :
    calculateVisibleRange 0 zoom pan =
      ⟨0, 0, 0⟩ := by
  have hdiv : (0 : ℚ) / zoom = 0 := zero_div zoom
  simp [calculateVisibleRange, hdiv, jsRound] <;> norm_num

/-- Witness for C3 (amended) at `zoom = 2`, `pan = 1/2`. -/
theorem visibleRange_empty_witness :
    calculateVisibleRange 0 2 (1/2) = ⟨0, 0, 0⟩ :=
  visibleRange_empty 2 (1/2) (by norm_num) (by norm_num) (by norm_num)

unseal Rat.add Rat.sub Rat.mul Rat.inv in
/-- C2, failing input: On the single flat candle
`(open = high = low = close = 5)` with `kPeriod = dPeriod = 1`, the
window is flat and the code computes `%K = (0 / 0) * 100 = NaN` and
`%D = NaN / 1 = NaN` — there is no defined fallback, contradicting the
claimed `0 ≤ %K, %D ≤ 100` bound. -/
theorem stochastic_flat_window_nan :
    calculateStochastic [⟨0, 5, 5, 5, 5⟩] 1 1 = [⟨0, .nan, .nan⟩] ∧
    ¬ (∀ v ∈ calculateStochastic [⟨0, 5, 5, 5, 5⟩] 1 1,
        JsVal.InRange 0 100 v.k ∧ JsVal.InRange 0 100 v.d) := by
  decide

unseal Rat.add Rat.sub Rat.mul Rat.inv in
/-- C4, failing input: On the constant 15-point series (all prices
`5`) with `period = 14`, every gain and loss is `0`, so
`avgLoss = avgGain = 0` and the code computes `rs = 0 / 0 = NaN` and
`RSI = NaN`, not `100` — contradicting the claim that a monotonically
non-decreasing series (average loss `0`) yields exactly `100`, never
`NaN`. -/
theorem rsi_constant_series_nan :
    calculateRSI ((List.range 15).map (fun i => ((i : ℤ), (5 : ℚ)))) 14 =
      [⟨14, .nan⟩] ∧
    ¬ (∀ v ∈ calculateRSI ((List.range 15).map (fun i => ((i : ℤ), (5 : ℚ)))) 14,
        v.value = .fin 100) := by
  decide

theorem lookupH_eq_none_iff (sym : String) (hs : List (String × Holding)) :
    lookupH sym hs = none ↔ ∀ pair ∈ hs, pair.1 ≠ sym := by
  induction hs with
  | nil => simp [lookupH]
  | cons p rest ih =>
      obtain ⟨s, h⟩ := p
      by_cases hsym : s = sym <;> simp [lookupH, hsym, ih]

theorem lookupH_mem {sym : String} {hs : List (String × Holding)}
    {h : Holding} (hl : lookupH sym hs = some h) : (sym, h) ∈ hs := by
  induction hs with
  | nil => simp [lookupH] at hl
  | cons p rest ih =>
      obtain ⟨s, x⟩ := p
      by_cases hsym : s = sym
      · subst hsym
        simp [lookupH] at hl
        simp [hl]
      · simp [lookupH, hsym] at hl
        exact List.mem_cons_of_mem _ (ih hl)

theorem mem_updateH {sym : String} {h : Holding}
    {hs : List (String × Holding)} {pair : String × Holding}
    (hmem : pair ∈ updateH sym h hs) : pair.2 = h ∨ pair ∈ hs := by
  induction hs with
  | nil => simp [updateH] at hmem; simp [hmem]
  | cons p rest ih =>
      obtain ⟨s, x⟩ := p
      by_cases hsym : s = sym
      · simp [updateH, hsym] at hmem
        rcases hmem with h1 | h1
        · left; rw [h1]
        · right; exact List.mem_cons_of_mem _ h1
      · simp [updateH, hsym] at hmem
        rcases hmem with h1 | h1
        · right; simp [h1]
        · rcases ih h1 with h2 | h2
          · exact Or.inl h2
          · exact Or.inr (List.mem_cons_of_mem _ h2)

theorem mem_of_mem_removeH {sym : String} {hs : List (String × Holding)}
    {pair : String × Holding} (hmem : pair ∈ removeH sym hs) : pair ∈ hs :=
  List.mem_of_mem_filter hmem

theorem updateH_of_lookup_none {sym : String} {h : Holding}
    {hs : List (String × Holding)} (hl : lookupH sym hs = none) :
    updateH sym h hs = hs ++ [(sym, h)] := by
  induction hs with
  | nil => simp [updateH]
  | cons p rest ih =>
      obtain ⟨s, x⟩ := p
      by_cases hsym : s = sym
      · simp [lookupH, hsym] at hl
      · simp [lookupH, hsym] at hl
        simp [updateH, hsym, ih hl]

theorem removeH_of_lookup_none {sym : String}
    {hs : List (String × Holding)} (hl : lookupH sym hs = none) :
    removeH sym hs = hs := by
  rw [removeH, List.filter_eq_self]
  intro pair hmem
  exact decide_eq_true ((lookupH_eq_none_iff sym hs).1 hl pair hmem)

theorem lookupH_append_singleton (sym : String) (h : Holding)
    (hs : List (String × Holding)) (hl : lookupH sym hs = none) :
    lookupH sym (hs ++ [(sym, h)]) = some h := by
  induction hs with
  | nil => simp [lookupH]
  | cons p rest ih =>
      obtain ⟨s, x⟩ := p
      by_cases hsym : s = sym
      · simp [lookupH, hsym] at hl
      · simp [lookupH, hsym] at hl ⊢
        exact ih hl

theorem removeH_append_singleton (sym : String) (h : Holding)
    (hs : List (String × Holding)) :
    removeH sym (hs ++ [(sym, h)]) = removeH sym hs := by
  simp [removeH]

/-- C6: `buyAsset` returns `false` exactly when
`cash < amount * price * (1 + TRADING_FEE)`, and a `false` return leaves
the portfolio completely unchanged; there is no positivity check on
`amount` or `price`, so every call (any sign of amount/price) whose cost
fits in cash returns `true`, deducts the cost and appends the BUY trade. -/
theorem buyAsset_failure_iff (p : Portfolio) (sym : String)
    (amount price : ℚ) :
    ((buyAsset sym amount price p).1 = false ↔
      p.cash < amount * price * (1 + TRADING_FEE)) ∧
    ((buyAsset sym amount price p).1 = false →
      (buyAsset sym amount price p).2 = p) ∧
    ((buyAsset sym amount price p).1 = true →
      (buyAsset sym amount price p).2.cash =
        p.cash - amount * price * (1 + TRADING_FEE) ∧
      (buyAsset sym amount price p).2.trades =
        p.trades ++ [⟨.BUY, sym, amount, price,
          amount * price * (1 + TRADING_FEE)⟩]) := by
  have hc : amount * price + amount * price * TRADING_FEE =
      amount * price * (1 + TRADING_FEE) := by ring
  by_cases h : p.cash < amount * price + amount * price * TRADING_FEE
  · refine ⟨⟨fun _ => by rw [← hc]; exact h, fun _ => by simp [buyAsset, h]⟩,
      fun _ => by simp [buyAsset, h], fun htrue => ?_⟩
    simp [buyAsset, h] at htrue
  · refine ⟨⟨fun hfalse => ?_, fun hlt => absurd (by rw [← hc] at hlt; exact hlt) h⟩,
      fun hfalse => ?_, fun _ => ?_⟩
    · simp [buyAsset, h] at hfalse
    · simp [buyAsset, h] at hfalse
    · have h' : ¬ p.cash < amount * price * (1 + TRADING_FEE) := by
        rw [← hc]; exact h
      simp [buyAsset, h, h', hc]

unseal Rat.add Rat.sub Rat.mul Rat.inv in
/-- Witness for C6's claim-relevant corner at a concrete input:
buying `0.1` at `50000` from the initial portfolio succeeds and costs
`5005`. -/
theorem buyAsset_failure_iff_witness :
    ((buyAsset "btc" (1/10) 50000 initialPortfolio).1 = false ↔
      initialPortfolio.cash < (1/10) * 50000 * (1 + TRADING_FEE)) ∧
    (buyAsset "btc" (1/10) 50000 initialPortfolio).2.cash = 4995 := by
  constructor
  · exact (buyAsset_failure_iff initialPortfolio "btc" (1/10) 50000).1
  · have h := (buyAsset_failure_iff initialPortfolio "btc" (1/10) 50000).2.2
    rw [(h (by decide)).1]
    decide

/-- C5: from a portfolio with no holding for `sym`, buying `a` units at
price `pr` (with `a, pr > 0` and enough cash for the cost including fee)
and then selling all `a` units at the same price both succeed, reduce
cash by exactly the two fees `2 * (a * pr * TRADING_FEE)`, remove the
holding entirely (the holdings map returns to its initial value), and
append exactly one BUY and one SELL trade. -/
theorem buy_sell_round_trip (p0 : Portfolio) (sym : String) (a pr : ℚ)
    (hnone : lookupH sym p0.holdings = none) (ha : 0 < a) (hpr : 0 < pr)
    (hcash : a * pr * (1 + TRADING_FEE) ≤ p0.cash) :
    (buyAsset sym a pr p0).1 = true ∧
    (sellAsset sym a pr (buyAsset sym a pr p0).2).1 = true ∧
    (sellAsset sym a pr (buyAsset sym a pr p0).2).2.cash =
      p0.cash - 2 * (a * pr * TRADING_FEE) ∧
    (sellAsset sym a pr (buyAsset sym a pr p0).2).2.holdings = p0.holdings ∧
    (sellAsset sym a pr (buyAsset sym a pr p0).2).2.trades =
      p0.trades ++ [⟨.BUY, sym, a, pr, a * pr + a * pr * TRADING_FEE⟩,
        ⟨.SELL, sym, a, pr, a * pr - a * pr * TRADING_FEE⟩] := by
  have hnotlt : ¬ p0.cash < a * pr + a * pr * TRADING_FEE := by
    rw [show a * pr + a * pr * TRADING_FEE = a * pr * (1 + TRADING_FEE) by ring]
    exact not_lt.2 hcash
  have hp1 : (buyAsset sym a pr p0).2 =
      { cash := p0.cash - (a * pr + a * pr * TRADING_FEE)
        holdings := p0.holdings ++ [(sym, ⟨a, pr, a * pr⟩)]
        trades := p0.trades ++ [⟨.BUY, sym, a, pr,
          a * pr + a * pr * TRADING_FEE⟩] } := by
    simp [buyAsset, hnotlt, hnone, updateH_of_lookup_none hnone]
  have hbuy : (buyAsset sym a pr p0).1 = true := by
    simp [buyAsset, hnotlt]
  have hkey : lookupH sym
      (p0.holdings ++ [(sym, (⟨a, pr, a * pr⟩ : Holding))]) =
      some ⟨a, pr, a * pr⟩ :=
    lookupH_append_singleton sym _ p0.holdings hnone
  refine ⟨hbuy, ?_, ?_, ?_, ?_⟩
  · rw [hp1]; simp [sellAsset, hkey]
  · rw [hp1]; simp [sellAsset, hkey]; ring
  · rw [hp1]
    simp [sellAsset, hkey, removeH_append_singleton,
      removeH_of_lookup_none hnone]
  · rw [hp1]; simp [sellAsset, hkey]

unseal Rat.add Rat.sub Rat.mul Rat.inv in
/-- Witness for C5: buying then selling `0.1` units at `50000` from the
initial `$10,000` portfolio leaves cash `10000 - 2 * 5 = 9990`. -/
theorem buy_sell_round_trip_witness :
    (sellAsset "btc" (1/10) 50000
        (buyAsset "btc" (1/10) 50000 initialPortfolio).2).2.cash =
      initialPortfolio.cash - 2 * ((1/10) * 50000 * TRADING_FEE) :=
  (buy_sell_round_trip initialPortfolio "btc" (1/10) 50000 (by decide)
    (by norm_num) (by norm_num)
    (by rw [TRADING_FEE, initialPortfolio, INITIAL_CASH]; norm_num)).2.2.1

theorem wf_buyAsset {p : Portfolio} (sym : String) {a pr : ℚ}
    (ha : 0 < a) (hwf : PortfolioWF p) :
    PortfolioWF (buyAsset sym a pr p).2 := by
  obtain ⟨hcash, hamounts⟩ := hwf
  by_cases hlt : p.cash < a * pr + a * pr * TRADING_FEE
  · simp only [buyAsset, if_pos hlt]
    exact ⟨hcash, hamounts⟩
  · simp only [buyAsset, if_neg hlt]
    refine ⟨by simp; linarith [not_lt.1 hlt], ?_⟩
    intro pair hpair
    simp only at hpair
    cases hl : lookupH sym p.holdings with
    | none =>
        rw [hl] at hpair
        rcases mem_updateH hpair with h1 | h1
        · rw [h1]; exact ha
        · exact hamounts pair h1
    | some h =>
        rw [hl] at hpair
        rcases mem_updateH hpair with h1 | h1
        · rw [h1]
          have := hamounts (sym, h) (lookupH_mem hl)
          simp only at this
          simp only
          linarith
        · exact hamounts pair h1

theorem wf_sellAsset {p : Portfolio} (sym : String) {a pr : ℚ}
    (ha : 0 < a) (hpr : 0 < pr) (hwf : PortfolioWF p) :
    PortfolioWF (sellAsset sym a pr p).2 := by
  obtain ⟨hcash, hamounts⟩ := hwf
  cases hl : lookupH sym p.holdings with
  | none => simp only [sellAsset, hl]; exact ⟨hcash, hamounts⟩
  | some h =>
      by_cases hlt : h.amount < a
      · simp only [sellAsset, hl, if_pos hlt]
        exact ⟨hcash, hamounts⟩
      · simp only [sellAsset, hl, if_neg hlt]
        have hfee : a * pr * TRADING_FEE < a * pr := by
          have hap : 0 < a * pr := mul_pos ha hpr
          rw [TRADING_FEE]
          nlinarith
        refine ⟨by simp; linarith, ?_⟩
        intro pair hpair
        by_cases heq : h.amount = a
        · simp only [if_pos heq] at hpair
          exact hamounts pair (mem_of_mem_removeH hpair)
        · simp only [if_neg heq] at hpair
          rcases mem_updateH hpair with h1 | h1
          · rw [h1]
            have hle := not_lt.1 hlt
            simp only
            rcases lt_or_eq_of_le hle with h2 | h2
            · linarith
            · exact absurd h2.symm heq
          · exact hamounts pair h1

theorem wf_run (ops : List TradeOp) (p : Portfolio)
    (hwf : PortfolioWF p) (hvalid : ∀ op ∈ ops, validOp op) :
    PortfolioWF (ops.foldl (fun q op => applyOp op q) p) := by
  induction ops generalizing p with
  | nil => exact hwf
  | cons op rest ih =>
      have hop := hvalid op (List.mem_cons_self op rest)
      have hstep : PortfolioWF (applyOp op p) := by
        cases op with
        | buy sym a pr => exact wf_buyAsset sym hop.1 hwf
        | sell sym a pr => exact wf_sellAsset sym hop.1 hop.2 hwf
      exact ih (applyOp op p) hstep
        (fun o ho => hvalid o (List.mem_cons_of_mem op ho))

/-- C7: in every state reachable from the initial portfolio
(`cash = 10000`, no holdings) by `buyAsset`/`sellAsset` calls with
positive amount and price, cash is non-negative and every holding amount
is non-negative — and since every prefix of a valid call sequence is
valid, this holds after each operation. -/
theorem reachable_cash_holdings_nonneg (ops : List TradeOp)
    (hvalid : ∀ op ∈ ops, validOp op) :
    0 ≤ (runOps ops).cash ∧
    ∀ pair ∈ (runOps ops).holdings, 0 ≤ pair.2.amount := by
  have hwf0 : PortfolioWF initialPortfolio := by
    constructor
    · rw [initialPortfolio, INITIAL_CASH]; norm_num
    · intro pair hpair; simp [initialPortfolio] at hpair
  have h := wf_run ops initialPortfolio hwf0 hvalid
  exact ⟨h.1, fun pair hpair => le_of_lt (h.2 pair hpair)⟩

/-- Witness for C7: after buying and fully selling one unit at `100`,
cash is non-negative. -/
theorem reachable_cash_holdings_nonneg_witness :
    0 ≤ (runOps [.buy "eth" 1 100, .sell "eth" 1 100]).cash :=
  (reachable_cash_holdings_nonneg [.buy "eth" 1 100, .sell "eth" 1 100]
    (by intro op hop
        simp only [List.mem_cons, List.not_mem_nil, or_false] at hop
        rcases hop with h | h <;> rw [h] <;>
          exact ⟨by norm_num, by norm_num⟩)).1

/-- C9: on any portfolio whose holdings are well-formed (non-negative
amounts) and satisfy `totalInvested = amount * averagePrice`, any
`buyAsset` or `sellAsset` call with positive amount and price preserves
both properties exactly — in particular arbitrarily many partial sells
never make `totalInvested` drift from `amount * averagePrice`. -/
theorem totalInvested_no_drift (p : Portfolio) (sym : String) (a pr : ℚ)
    (ha : 0 < a) (hpr : 0 < pr)
    (hnn : ∀ pair ∈ p.holdings, 0 ≤ pair.2.amount)
    (hinv : TIInvariant p) :
    (TIInvariant (buyAsset sym a pr p).2 ∧
      ∀ pair ∈ (buyAsset sym a pr p).2.holdings, 0 ≤ pair.2.amount) ∧
    (TIInvariant (sellAsset sym a pr p).2 ∧
      ∀ pair ∈ (sellAsset sym a pr p).2.holdings, 0 ≤ pair.2.amount) := by
  constructor
  · by_cases hlt : p.cash < a * pr + a * pr * TRADING_FEE
    · simp only [buyAsset, if_pos hlt]
      exact ⟨hinv, hnn⟩
    · simp only [buyAsset, if_neg hlt]
      cases hl : lookupH sym p.holdings with
      | none =>
          constructor
          · intro pair hpair
            simp only at hpair
            rcases mem_updateH hpair with h1 | h1
            · rw [h1]
            · exact hinv pair h1
          · intro pair hpair
            simp only at hpair
            rcases mem_updateH hpair with h1 | h1
            · rw [h1]; exact le_of_lt ha
            · exact hnn pair h1
      | some h =>
          have hmem := lookupH_mem hl
          have hha : (0:ℚ) ≤ h.amount := hnn (sym, h) hmem
          have hsum : (0:ℚ) < h.amount + a := by linarith
          constructor
          · intro pair hpair
            simp only at hpair
            rcases mem_updateH hpair with h1 | h1
            · rw [h1]
              simp only
              rw [mul_comm (h.amount + a), div_mul_cancel₀ _ (ne_of_gt hsum)]
              have := hinv (sym, h) hmem
              simp only at this
              rw [this]
            · exact hinv pair h1
          · intro pair hpair
            simp only at hpair
            rcases mem_updateH hpair with h1 | h1
            · rw [h1]; exact le_of_lt hsum
            · exact hnn pair h1
  · cases hl : lookupH sym p.holdings with
    | none => simp only [sellAsset, hl]; exact ⟨hinv, hnn⟩
    | some h =>
        by_cases hlt : h.amount < a
        · simp only [sellAsset, hl, if_pos hlt]
          exact ⟨hinv, hnn⟩
        · simp only [sellAsset, hl, if_neg hlt]
          by_cases heq : h.amount = a
          · simp only [if_pos heq]
            exact ⟨fun pair hpair => hinv pair (mem_of_mem_removeH hpair),
              fun pair hpair => hnn pair (mem_of_mem_removeH hpair)⟩
          · simp only [if_neg heq]
            have hha : a < h.amount :=
              lt_of_le_of_ne (not_lt.1 hlt) (fun hc => heq hc.symm)
            have hne : h.amount ≠ 0 := ne_of_gt (lt_trans ha hha)
            constructor
            · intro pair hpair
              rcases mem_updateH hpair with h1 | h1
              · rw [h1]
                simp only
                have hti := hinv (sym, h) (lookupH_mem hl)
                simp only at hti
                rw [hti]
                field_simp
                ring
              · exact hinv pair h1
            · intro pair hpair
              rcases mem_updateH hpair with h1 | h1
              · rw [h1]
                simp only
                linarith
              · exact hnn pair h1

unseal Rat.add Rat.sub Rat.mul Rat.inv in
/-- Witness for C9: one buy from the initial portfolio preserves the
accounting identity. -/
theorem totalInvested_no_drift_witness :
    TIInvariant (buyAsset "sol" 2 30 initialPortfolio).2 :=
  ((totalInvested_no_drift initialPortfolio "sol" 2 30 (by norm_num)
    (by norm_num) (by intro pair hpair; simp [initialPortfolio] at hpair)
    (by intro pair hpair; simp [initialPortfolio] at hpair)).1).1

theorem evaluateCustomStrategy_some_position (logic : String)
    (candles : List Kline) (bb : List BollingerBandsValue)
    (pos : AutoTradePosition) (cash mta : ℚ) :
    evaluateCustomStrategy logic candles bb (some pos) cash mta = false := by
  rw [evaluateCustomStrategy]
  split
  · split
    · rfl
    · split
      · simp
      · rfl
  · rfl

theorem tickCustomPhase_position_some (symbol : String)
    (settings : AutoTradeSettings) (strategies : List AutoTradeStrategy)
    (currentPrice : ℚ) (candles : List Kline)
    (bb : List BollingerBandsValue) (stale st2 : AutoState)
    (pos : AutoTradePosition) (h : stale.position = some pos) :
    tickCustomPhase symbol settings strategies currentPrice candles bb
      stale st2 = st2 := by
  rw [tickCustomPhase]
  split
  · split
    · rw [h, evaluateCustomStrategy_some_position]
      simp
    · rfl
  · rfl

theorem buyAssetStale_self (sym : String) (amount price : ℚ)
    (p : Portfolio) :
    buyAssetStale sym amount price p.cash p = buyAsset sym amount price p :=
  rfl

theorem executeCustomStrategyBuyStale_self (symbol : String)
    (settings : AutoTradeSettings) (strat : AutoTradeStrategy)
    (currentPrice : ℚ) (pf : Portfolio) :
    executeCustomStrategyBuyStale symbol settings strat currentPrice
      pf.cash pf = executeCustomStrategyBuy symbol settings strat
      currentPrice pf :=
  rfl

theorem tickCustomPhase_not_custom (symbol : String)
    (settings : AutoTradeSettings) (strategies : List AutoTradeStrategy)
    (currentPrice : ℚ) (candles : List Kline)
    (bb : List BollingerBandsValue) (stale st2 : AutoState)
    (hne : settings.strategyMode ≠ some "custom") :
    tickCustomPhase symbol settings strategies currentPrice candles bb
      stale st2 = st2 := by
  rw [tickCustomPhase]
  split
  · rename_i sid heq1 heq2
    exact absurd heq1 hne
  · rfl

theorem tickCustomPhase_custom_fires (symbol : String)
    (settings : AutoTradeSettings) (strategies : List AutoTradeStrategy)
    (currentPrice : ℚ) (candles : List Kline)
    (bb : List BollingerBandsValue) (stale st2 : AutoState)
    (sid : String) (strat : AutoTradeStrategy)
    (hm : settings.strategyMode = some "custom")
    (hsid : settings.selectedStrategyId = some sid)
    (hfind : strategies.find? (fun s => decide (s.id = sid) && s.enabled) =
      some strat)
    (heval : evaluateCustomStrategy strat.logic candles bb stale.position
      stale.portfolio.cash settings.maxTradeAmount = true)
    (hguard : ¬ stale.portfolio.cash <
      settings.maxTradeAmount / currentPrice * currentPrice +
        settings.maxTradeAmount / currentPrice * currentPrice *
          TRADING_FEE) :
    tickCustomPhase symbol settings strategies currentPrice candles bb
      stale st2 =
      { st2 with
        portfolio := (buyAssetStale symbol
          (settings.maxTradeAmount / currentPrice) currentPrice
          stale.portfolio.cash st2.portfolio).2
        position := some
          { symbol := symbol
            buyPrice := currentPrice
            amount := settings.maxTradeAmount / currentPrice
            targetSellPrice := currentPrice *
              (1 + (if strat.logic = "bb_lower_red_two_green" then 1/100
                else settings.profitTarget))
            stopLossPrice := currentPrice * (1 - settings.stopLoss)
            strategy := some strat.logic } } := by
  have hsucc : (buyAssetStale symbol
      (settings.maxTradeAmount / currentPrice) currentPrice
      stale.portfolio.cash st2.portfolio).1 = true := by
    simp [buyAssetStale, hguard]
  rw [tickCustomPhase]
  simp only [hm, hsid, hfind]
  rw [if_pos heval]
  simp only [executeCustomStrategyBuyStale]
  rw [if_pos hsucc]

theorem buyAssetStale_trades (sym : String) (a pr sc : ℚ)
    (p : Portfolio) :
    ∃ rest, (buyAssetStale sym a pr sc p).2.trades = p.trades ++ rest := by
  rw [buyAssetStale]
  split
  · exact ⟨[], by simp⟩
  · exact ⟨[⟨.BUY, sym, a, pr, a * pr + a * pr * TRADING_FEE⟩], rfl⟩

theorem tickCustomPhase_trades_append (symbol : String)
    (settings : AutoTradeSettings) (strategies : List AutoTradeStrategy)
    (currentPrice : ℚ) (candles : List Kline)
    (bb : List BollingerBandsValue) (stale st2 : AutoState) :
    ∃ rest, (tickCustomPhase symbol settings strategies currentPrice
      candles bb stale st2).portfolio.trades =
      st2.portfolio.trades ++ rest := by
  rw [tickCustomPhase]
  split
  · split
    · split
      · simp only [executeCustomStrategyBuyStale]
        split
        · exact buyAssetStale_trades symbol
            (settings.maxTradeAmount / currentPrice) currentPrice
            stale.portfolio.cash st2.portfolio
        · exact buyAssetStale_trades symbol
            (settings.maxTradeAmount / currentPrice) currentPrice
            stale.portfolio.cash st2.portfolio
      · exact ⟨[], by simp⟩
    · exact ⟨[], by simp⟩
  · exact ⟨[], by simp⟩

unseal Rat.add Rat.sub Rat.mul Rat.inv in
/-- C1, counterexample: with `strategyMode = 'custom'`, a selected and
enabled custom strategy that cannot fire (no candles), no open position,
and a `BUY`/`high` prediction with sufficient cash, the tick still
executes the default ML entry: the resulting position carries no
strategy tag, contradicting "when strategyMode is 'custom', entries come
only from the selected custom strategy" (there is no
`strategyMode != 'custom'` guard around the default entry in the code). -/
theorem custom_mode_default_entry_counterexample :
    (AutoTradeSettings.strategyMode
        ⟨true, 100, 12/1000, 5/1000, "medium", some "custom", some "s1"⟩ =
      some "custom") ∧
    (tick "btc"
        ⟨true, 100, 12/1000, 5/1000, "medium", some "custom", some "s1"⟩
        [⟨"s1", true, "bb_lower_red_two_green"⟩]
        (some ⟨"BUY", "high", 9/10, 1⟩) 100 [] []
        ⟨initialPortfolio, none, ⟨0, 0, 0, 0, 0⟩, false, 0, none⟩).position =
      some ⟨"btc", 100, 1, 100 * (1 + 12/1000), 100 * (1 - 5/1000), none⟩ := by
  constructor
  · rfl
  · decide

/-- C1, amended: on every qualifying tick (enabled, not processing,
price moved, no open position) where the default ML entry rule fires and
the buy fits in cash, the default ML buy executes regardless of
`strategyMode` — its BUY trade is always appended.  When `strategyMode`
is not `'custom'` the tick ends with the untagged default-path position.
When it is `'custom'`, the selected strategy is evaluated in addition,
against the render-time (pre-tick) position and cash — it is not
suppressed by the same-tick default buy — so if its rule also fires, a
second buy executes and the strategy-tagged position overwrites the
default one.  Entries can therefore come from either path in custom
mode. -/
theorem default_entry_runs_in_any_mode (symbol : String)
    (settings : AutoTradeSettings) (strategies : List AutoTradeStrategy)
    (pred : Option ModelPrediction) (price : ℚ) (candles : List Kline)
    (bb : List BollingerBandsValue) (st : AutoState)
    (hen : settings.enabled = true) (hproc : st.processing = false)
    (hflat : st.position = none)
    (hchange : |price - st.lastPrice| > 1/10000)
    (hbuy : shouldBuy settings none st.portfolio.cash price pred = true)
    (hcash : ¬ st.portfolio.cash <
      settings.maxTradeAmount / price * price +
        settings.maxTradeAmount / price * price * TRADING_FEE) :
    (∃ rest, (tick symbol settings strategies pred price candles bb
        st).portfolio.trades =
      st.portfolio.trades ++
        ⟨.BUY, symbol, settings.maxTradeAmount / price, price,
          settings.maxTradeAmount / price * price +
            settings.maxTradeAmount / price * price * TRADING_FEE⟩ ::
          rest) ∧
    (settings.strategyMode ≠ some "custom" →
      (tick symbol settings strategies pred price candles bb st).position =
        some { symbol := symbol
               buyPrice := price
               amount := settings.maxTradeAmount / price
               targetSellPrice := price * (1 + settings.profitTarget)
               stopLossPrice := price * (1 - settings.stopLoss)
               strategy := none }) ∧
    (∀ sid strat, settings.strategyMode = some "custom" →
      settings.selectedStrategyId = some sid →
      strategies.find? (fun s => decide (s.id = sid) && s.enabled) =
        some strat →
      evaluateCustomStrategy strat.logic candles bb none st.portfolio.cash
        settings.maxTradeAmount = true →
      (tick symbol settings strategies pred price candles bb st).position =
        some { symbol := symbol
               buyPrice := price
               amount := settings.maxTradeAmount / price
               targetSellPrice := price *
                 (1 + (if strat.logic = "bb_lower_red_two_green" then 1/100
                   else settings.profitTarget))
               stopLossPrice := price * (1 - settings.stopLoss)
               strategy := some strat.logic }) := by
  have hpred : pred.isSome = true := by
    cases pred with
    | none => simp [shouldBuy] at hbuy
    | some p => rfl
  have hdec : decide (|price - st.lastPrice| > 1/10000) = true :=
    decide_eq_true hchange
  have hsucc : (buyAsset symbol (settings.maxTradeAmount / price) price
      st.portfolio).1 = true := by
    simp [buyAsset, hcash]
  have htick : tick symbol settings strategies pred price candles bb st =
      tickCustomPhase symbol settings strategies price candles bb
        { st with lastPrice := price
                  lastPredictionTs := pred.map ModelPrediction.timestamp }
        { st with lastPrice := price
                  lastPredictionTs := pred.map ModelPrediction.timestamp
                  portfolio := (buyAsset symbol
                    (settings.maxTradeAmount / price) price st.portfolio).2
                  position := some ⟨symbol, price,
                    settings.maxTradeAmount / price,
                    price * (1 + settings.profitTarget),
                    price * (1 - settings.stopLoss), none⟩ } := by
    rw [tick, hen, hproc]
    simp only [Bool.not_true, Bool.false_or, Bool.or_false, hdec,
      Bool.true_or, Bool.not_false, if_false, if_true, hflat,
      Bool.false_eq_true, ite_false, ite_true]
    rw [tickBuyPhases]
    simp only [hflat, Option.isNone_none, hpred, Bool.true_and, hbuy,
      if_true, ite_true, executeBuy]
    rw [if_pos hsucc]
  refine ⟨?_, ?_, ?_⟩
  · rw [htick]
    obtain ⟨rest, hr⟩ := tickCustomPhase_trades_append symbol settings
      strategies price candles bb _ _
    refine ⟨rest, ?_⟩
    rw [hr]
    have hb : (buyAsset symbol (settings.maxTradeAmount / price) price
        st.portfolio).2.trades = st.portfolio.trades ++
        [⟨.BUY, symbol, settings.maxTradeAmount / price, price,
          settings.maxTradeAmount / price * price +
            settings.maxTradeAmount / price * price * TRADING_FEE⟩] := by
      simp [buyAsset, hcash]
    show (buyAsset symbol (settings.maxTradeAmount / price) price
        st.portfolio).2.trades ++ rest = _
    rw [hb, List.append_assoc]
    rfl
  · intro hne
    rw [htick, tickCustomPhase_not_custom symbol settings strategies price
      candles bb _ _ hne]
  · intro sid strat hm hsid hfind heval
    have heval' : evaluateCustomStrategy strat.logic candles bb
        (AutoState.position
          { st with lastPrice := price
                    lastPredictionTs := pred.map ModelPrediction.timestamp })
        (AutoState.portfolio
          { st with lastPrice := price
                    lastPredictionTs :=
                      pred.map ModelPrediction.timestamp }).cash
        settings.maxTradeAmount = true := by
      simpa [hflat] using heval
    rw [htick, tickCustomPhase_custom_fires symbol settings strategies
      price candles bb _ _ sid strat hm hsid hfind heval' hcash]

unseal Rat.add Rat.sub Rat.mul Rat.inv in
/-- Witness for C1 (amended), exercising both position cases: in default
mode (`strategyMode = none`) a qualifying tick creates the untagged
default-path position; in custom mode with candles satisfying the
`bb_lower_red_two_green` pattern, the same qualifying tick ends with the
strategy-tagged position (the custom buy, evaluated against the
render-time state, overwrites the default one). -/
theorem default_entry_runs_in_any_mode_witness :
    ((tick "eth" ⟨true, 100, 12/1000, 5/1000, "medium", none, none⟩ []
        (some ⟨"BUY", "high", 9/10, 1⟩) 100 [] []
        ⟨initialPortfolio, none, ⟨0, 0, 0, 0, 0⟩, false, 0, none⟩).position =
      some ⟨"eth", 100, 1, 100 * (1 + 12/1000), 100 * (1 - 5/1000),
        none⟩) ∧
    ((tick "btc"
        ⟨true, 100, 12/1000, 5/1000, "medium", some "custom", some "s1"⟩
        [⟨"s1", true, "bb_lower_red_two_green"⟩]
        (some ⟨"BUY", "high", 9/10, 1⟩) 100
        [⟨0, 10, 10, 9, 9⟩, ⟨1, 9, 10, 9, 10⟩, ⟨2, 10, 11, 99/10, 11⟩]
        [⟨2, 12, 11, 10⟩]
        ⟨initialPortfolio, none, ⟨0, 0, 0, 0, 0⟩, false, 0, none⟩).position =
      some ⟨"btc", 100, 1, 100 * (1 + 1/100), 100 * (1 - 5/1000),
        some "bb_lower_red_two_green"⟩) := by
  constructor
  · have h := (default_entry_runs_in_any_mode "eth"
      ⟨true, 100, 12/1000, 5/1000, "medium", none, none⟩ []
      (some ⟨"BUY", "high", 9/10, 1⟩) 100 [] []
      ⟨initialPortfolio, none, ⟨0, 0, 0, 0, 0⟩, false, 0, none⟩
      rfl rfl rfl (by norm_num) (by decide) (by decide)).2.1 (by simp)
    rw [h]
    norm_num
  · have h := (default_entry_runs_in_any_mode "btc"
      ⟨true, 100, 12/1000, 5/1000, "medium", some "custom", some "s1"⟩
      [⟨"s1", true, "bb_lower_red_two_green"⟩]
      (some ⟨"BUY", "high", 9/10, 1⟩) 100
      [⟨0, 10, 10, 9, 9⟩, ⟨1, 9, 10, 9, 10⟩, ⟨2, 10, 11, 99/10, 11⟩]
      [⟨2, 12, 11, 10⟩]
      ⟨initialPortfolio, none, ⟨0, 0, 0, 0, 0⟩, false, 0, none⟩
      rfl rfl rfl (by norm_num) (by decide) (by decide)).2.2 "s1"
      ⟨"s1", true, "bb_lower_red_two_green"⟩ rfl rfl (by decide)
      (by decide)
    rw [h]
    norm_num

theorem drop_append_three (pre : List α) (a b c : α) :
    (pre ++ [a, b, c]).drop ((pre ++ [a, b, c]).length - 3) = [a, b, c] := by
  have h : (pre ++ [a, b, c]).length - 3 = pre.length := by
    simp
  rw [h, List.drop_left]

theorem exists_last_three (l : List α) (h : 3 ≤ l.length) :
    ∃ pre a b c, l = pre ++ [a, b, c] := by
  have h1 : (l.drop (l.length - 3)).length = 3 := by
    simp
    omega
  cases hd : l.drop (l.length - 3) with
  | nil => rw [hd] at h1; simp at h1
  | cons a t =>
      cases t with
      | nil => rw [hd] at h1; simp at h1
      | cons b t2 =>
          cases t2 with
          | nil => rw [hd] at h1; simp at h1
          | cons c t3 =>
              cases t3 with
              | nil =>
                  exact ⟨l.take (l.length - 3), a, b, c,
                    by rw [← hd, List.take_append_drop]⟩
              | cons d t4 => rw [hd] at h1; simp at h1

theorem exists_last_one (l : List α) (h : 1 ≤ l.length) :
    ∃ pre x, l = pre ++ [x] := by
  rcases List.eq_nil_or_concat l with h0 | ⟨pre, x, hx⟩
  · rw [h0] at h; simp at h
  · exact ⟨pre, x, by rw [hx, List.concat_eq_append]⟩

/-- C8: with no open position, the `bb_lower_red_two_green` rule fires
exactly when the candle list ends in three candles `c3, c2, c1` (so has
length ≥ 3), the Bollinger series ends in a value `L` (so is non-empty),
some of the last three candles has `low ≤ L.lower * 1.001`, `c3` is red,
`c2` and `c1` are green, and `cash * 0.95 ≥ maxTradeAmount`; and a
successful custom-strategy buy for this rule sets
`targetSellPrice = price * (1 + 0.01)` (the 1% override) and
`stopLossPrice = price * (1 - stopLoss)`. -/
theorem bb_lower_red_two_green_rule (candles : List Kline)
    (bb : List BollingerBandsValue) (cash mta : ℚ) (symbol : String)
    (settings : AutoTradeSettings) (strat : AutoTradeStrategy)
    (price : ℚ) :
    (evaluateCustomStrategy "bb_lower_red_two_green" candles bb none cash
        mta = true ↔
      ∃ pre c3 c2 c1 bbPre L, candles = pre ++ [c3, c2, c1] ∧
        bb = bbPre ++ [L] ∧
        (c3.low ≤ L.lower * (1001/1000) ∨ c2.low ≤ L.lower * (1001/1000) ∨
          c1.low ≤ L.lower * (1001/1000)) ∧
        c3.close < c3.openPrice ∧
        (c2.openPrice < c2.close ∧ c1.openPrice < c1.close) ∧
        cash * (95/100) ≥ mta) ∧
    (strat.logic = "bb_lower_red_two_green" →
      ∀ pf pos, (executeCustomStrategyBuy symbol settings strat price
          pf).2 = some pos →
        pos.targetSellPrice = price * (1 + 1/100) ∧
        pos.stopLossPrice = price * (1 - settings.stopLoss)) := by
  constructor
  · by_cases hlen : candles.length < 3 ∨ bb.length < 1
    · rw [evaluateCustomStrategy, if_pos rfl, if_pos hlen]
      constructor
      · intro h; exact absurd h (by simp)
      · rintro ⟨pre, c3, c2, c1, bbPre, L, hc, hb, -⟩
        exfalso
        rcases hlen with h | h
        · rw [hc] at h; simp at h
        · rw [hb] at h; simp at h
    · push_neg at hlen
      obtain ⟨hc3, hb1⟩ := hlen
      have hc3' : 3 ≤ candles.length := by omega
      have hb1' : 1 ≤ bb.length := by omega
      obtain ⟨pre, c3, c2, c1, hc⟩ := exists_last_three candles hc3'
      obtain ⟨bbPre, L, hb⟩ := exists_last_one bb hb1'
      have hdrop : candles.drop (candles.length - 3) = [c3, c2, c1] := by
        rw [hc]; exact drop_append_three pre c3 c2 c1
      have hlast : bb.getLast? = some L := by
        rw [hb]; exact List.getLast?_concat _
      rw [evaluateCustomStrategy, if_pos rfl,
        if_neg (by omega : ¬ (candles.length < 3 ∨ bb.length < 1))]
      rw [hdrop, hlast]
      simp only [Option.isSome_none, Bool.false_eq_true, if_false,
        ite_false, List.any_cons, List.any_nil, Bool.or_false,
        Bool.and_eq_true, Bool.or_eq_true, decide_eq_true_eq,
        isCandleRed, isCandleGreen]
      constructor
      · rintro ⟨⟨⟨hhit, hred⟩, hgreen⟩, hcash⟩
        exact ⟨pre, c3, c2, c1, bbPre, L, hc, hb, hhit, hred, hgreen, hcash⟩
      · rintro ⟨pre', c3', c2', c1', bbPre', L', hc', hb', hhit', hred',
          hgreen', hcash'⟩
        have hdrop' : candles.drop (candles.length - 3) = [c3', c2', c1'] := by
          rw [hc']; exact drop_append_three pre' c3' c2' c1'
        have hL' : bb.getLast? = some L' := by
          rw [hb']; exact List.getLast?_concat _
        rw [hdrop] at hdrop'
        rw [hlast] at hL'
        injection hdrop' with h1 hrest
        injection hrest with h2 hrest2
        injection hrest2 with h3 _
        injection hL' with hL
        subst h1; subst h2; subst h3; subst hL
        exact ⟨⟨⟨hhit', hred'⟩, hgreen'⟩, hcash'⟩
  · intro hlogic pf pos h
    rw [executeCustomStrategyBuy] at h
    split at h
    · simp only [Option.some.injEq] at h
      rw [← h]
      simp [hlogic]
    · simp at h

unseal Rat.add Rat.sub Rat.mul Rat.inv in
/-- Witness for C8: a concrete three-candle pattern (red candle, two
green candles, lows touching the lower band) with enough cash makes the
rule fire, and the custom buy at price `100` produces
`targetSellPrice = 101` and `stopLossPrice = 99.5`. -/
theorem bb_lower_red_two_green_rule_witness :
    evaluateCustomStrategy "bb_lower_red_two_green"
        [⟨0, 10, 10, 9, 9⟩, ⟨1, 9, 10, 9, 10⟩, ⟨2, 10, 11, 99/10, 11⟩]
        [⟨2, 12, 11, 10⟩] none 1000 100 = true ∧
    (executeCustomStrategyBuy "btc"
        ⟨true, 100, 12/1000, 5/1000, "medium", some "custom", some "s1"⟩
        ⟨"s1", true, "bb_lower_red_two_green"⟩ 100 initialPortfolio).2 =
      some ⟨"btc", 100, 1, 100 * (1 + 1/100), 100 * (1 - 5/1000),
        some "bb_lower_red_two_green"⟩ := by
  constructor
  · exact (bb_lower_red_two_green_rule
      [⟨0, 10, 10, 9, 9⟩, ⟨1, 9, 10, 9, 10⟩, ⟨2, 10, 11, 99/10, 11⟩]
      [⟨2, 12, 11, 10⟩] 1000 100 "btc"
      ⟨true, 100, 12/1000, 5/1000, "medium", some "custom", some "s1"⟩
      ⟨"s1", true, "bb_lower_red_two_green"⟩ 100).1.mpr
      ⟨[], ⟨0, 10, 10, 9, 9⟩, ⟨1, 9, 10, 9, 10⟩, ⟨2, 10, 11, 99/10, 11⟩,
        [], ⟨2, 12, 11, 10⟩, rfl, rfl, by norm_num [Kline.low], by decide,
        ⟨by decide, by decide⟩, by norm_num⟩
  · decide

end Cry
